import Mathlib

/-!
Verification of the team Swiss tournament engine (`teamSwiss.py`).

The Python source is shallowly embedded below: each class becomes a
structure, each method a pure function; a mutated `self` is threaded
explicitly.  Match points, game points, buchholz and ratings are modelled
as rationals (Python floats here only ever hold multiples of 0.5), ids as
naturals, colors as the strings "W"/"B" used by the source.
-/

namespace TeamSwiss

/-- Embeds the Python `Player` class: name, rating, owning team id, board
number, and the mutable list of colors played ("W" or "B"). -/
structure Player where
  name : String
  rating : Int
  team_id : Nat
  board : Nat
  colors : List String
deriving Repr, DecidableEq

/-- Embeds the Python `Team` class. -/
structure Team where
  id : Nat
  name : String
  players : List Player
  match_points : ℚ
  game_points : ℚ
  opponents : List Nat
  buchholz : ℚ
deriving Repr, DecidableEq

/-- `Team.avg_rating`: mean of member ratings, 0 for an empty roster. -/
def Team.avg_rating (t : Team) : ℚ :=
  if t.players = [] then 0
  else (t.players.map (fun p => (p.rating : ℚ))).sum / t.players.length

/-- The aggregate tournament state (`TeamSwissTournament`): the team
registry (Python keeps a dict id → Team; we keep the list of teams in
insertion order, ids unique), the completed-round counter and the fixed
board count. -/
structure Tournament where
  teams : List Team
  current_round : Nat
  team_size : Nat
deriving Repr, DecidableEq

/-- Dict lookup `self.teams[tid]` (with the `tid in self.teams` guard). -/
def lookupTeam (teams : List Team) (tid : Nat) : Option Team :=
  teams.find? (fun t => t.id == tid)

/-- A player's color balance: whites minus blacks, as computed inside
`determine_colors`. -/
def colorBalance (p : Player) : Int :=
  (p.colors.count "W" : Int) - (p.colors.count "B" : Int)

/-- `TeamSwissTournament.determine_colors`: returns `(white, black)`.
Lower color balance takes white; on a tie the player with the higher
(or equal) rating — i.e. the first argument on a full tie — takes white. -/
def determine_colors (player1 player2 : Player) : Player × Player :=
  let p1_balance := colorBalance player1
  let p2_balance := colorBalance player2
  if p1_balance < p2_balance then (player1, player2)
  else if p2_balance < p1_balance then (player2, player1)
  else if player1.rating ≥ player2.rating then (player1, player2)
  else (player2, player1)

/-- The sort key used by `display_standings`, `generate_round` and
`save_main`: the tuple `(-match_points, -game_points, -buchholz,
-avg_rating)` from the shared `key=lambda t: ...`. -/
def rankKey (t : Team) : ℚ × ℚ × ℚ × ℚ :=
  (-t.match_points, -t.game_points, -t.buchholz, -t.avg_rating)

/-- Lexicographic comparison of sort keys: Python's tuple ordering, as
used by `sorted` on the rank keys. -/
def keyLe : ℚ × ℚ × ℚ × ℚ → ℚ × ℚ × ℚ × ℚ → Bool
  | (a1, a2, a3, a4), (b1, b2, b3, b4) =>
    if a1 < b1 then true else if b1 < a1 then false
    else if a2 < b2 then true else if b2 < a2 then false
    else if a3 < b3 then true else if b3 < a3 then false
    else decide (a4 ≤ b4)

/-- Team comparison induced by the rank key. -/
def rank_le (a b : Team) : Bool := keyLe (rankKey a) (rankKey b)

/-- `sorted(self.teams.values(), key=...)` in `display_standings`
(Python's `sorted` is a stable merge sort). -/
def display_standings_sorted (s : Tournament) : List Team :=
  s.teams.mergeSort rank_le

/-- `sorted(self.teams.values(), key=...)` in `generate_round`, with the
identical key. -/
def generate_round_sorted (s : Tournament) : List Team :=
  s.teams.mergeSort rank_le

/-- The first inner scan of `generate_round`: the first strictly
lower-ranked team that is not yet paired and not in `team1`'s opponents
history. -/
def findFreshOpponent (team1 : Team) (rest : List Team) (paired : List Nat) : Option Team :=
  rest.find? (fun c => decide (c.id ∉ paired ∧ c.id ∉ team1.opponents))

/-- The fallback scan of `generate_round`: the first not-yet-paired team
regardless of history. -/
def findAnyOpponent (rest : List Team) (paired : List Nat) : Option Team :=
  rest.find? (fun c => decide (c.id ∉ paired))

/-- Opponent selection of `generate_round`: the fresh scan first, the
repeat fallback only when it fails. -/
def pickOpponent (team1 : Team) (rest : List Team) (paired : List Nat) : Option Team :=
  match findFreshOpponent team1 rest paired with
  | some c => some c
  | none => findAnyOpponent rest paired

/-- One board of a generated match: board number, white and black player. -/
structure BoardAssign where
  board : Nat
  white : Player
  black : Player
deriving Repr, DecidableEq

/-- A generated match (`match` dict in `generate_round`). -/
structure RoundMatch where
  team1 : Team
  team2 : Team
  boards : List BoardAssign
deriving Repr, DecidableEq

/-- Board pairing loop of `generate_round`: board `i` of one team meets
board `i` of the other, colors from `determine_colors`. -/
def makeBoards (team_size : Nat) (team1 team2 : Team) : List BoardAssign :=
  (List.range team_size).filterMap (fun i =>
    match team1.players[i]?, team2.players[i]? with
    | some p1, some p2 =>
      some { board := i + 1, white := (determine_colors p1 p2).1,
             black := (determine_colors p1 p2).2 }
    | _, _ => none)

/-- The greedy Swiss pairing loop over the ranked team list, carrying the
`paired` id set. -/
def pairLoop (team_size : Nat) : List Team → List Nat → List RoundMatch
  | [], _ => []
  | team1 :: rest, paired =>
    if team1.id ∈ paired then pairLoop team_size rest paired
    else
      match pickOpponent team1 rest paired with
      | none => pairLoop team_size rest paired
      | some team2 =>
        { team1 := team1, team2 := team2,
          boards := makeBoards team_size team1 team2 } ::
          pairLoop team_size rest (paired ++ [team1.id, team2.id])

/-- `TeamSwissTournament.generate_round`: ranks the teams and runs the
greedy pairing loop; the tournament state is returned unchanged alongside
the round number and pairings. -/
def generate_round (s : Tournament) : Tournament × Nat × List RoundMatch :=
  (s, s.current_round + 1, pairLoop s.team_size (generate_round_sorted s) [])

/-- Reads the board cell for board index `i` (0-based) of a results row:
`none` models both a missing `Board_i_Result` column and an empty result
field; otherwise the white score and the reported white player's name. -/
def boardEntry (boards : List (Option (ℚ × String))) (i : Nat) : Option (ℚ × String) :=
  boards[i]?.join

/-- One reported match of a round results file: the two team ids and the
per-board cells (`Board_i_White`, `Board_i_Result`). -/
structure MatchRow where
  team1_id : Nat
  team2_id : Nat
  boards : List (Option (ℚ × String))
deriving Repr, DecidableEq

/-- One iteration of the per-board loop in `load_round_results`.  The
state is `(team1.players, team2.players, team1_score, team2_score)`; a
missing or empty result leaves it untouched.  When the white name matches
the team-1 player, the color appends sit under the source's extra
`'W' not in colors or len(colors) < round_num` test; in the other branch
each append is guarded only by its own length test.  (A board index
outside either roster, which would raise in the source, also leaves the
state untouched.) -/
def processBoard (round_num : Nat) (st : List Player × List Player × ℚ × ℚ)
    (i : Nat) (entry : Option (ℚ × String)) : List Player × List Player × ℚ × ℚ :=
  match entry with
  | none => st
  | some (result, white_name) =>
    match st with
    | (ps1, ps2, s1, s2) =>
      match ps1[i]?, ps2[i]? with
      | some team1_player, some team2_player =>
        if team1_player.name = white_name then
          let s1 := s1 + result
          let s2 := s2 + (1 - result)
          if "W" ∉ team1_player.colors ∨ team1_player.colors.length < round_num then
            let ps1 := if team1_player.colors.length < round_num then
                ps1.set i { team1_player with colors := team1_player.colors ++ ["W"] }
              else ps1
            let ps2 := if team2_player.colors.length < round_num then
                ps2.set i { team2_player with colors := team2_player.colors ++ ["B"] }
              else ps2
            (ps1, ps2, s1, s2)
          else (ps1, ps2, s1, s2)
        else
          let s2 := s2 + result
          let s1 := s1 + (1 - result)
          let ps2 := if team2_player.colors.length < round_num then
              ps2.set i { team2_player with colors := team2_player.colors ++ ["W"] }
            else ps2
          let ps1 := if team1_player.colors.length < round_num then
              ps1.set i { team1_player with colors := team1_player.colors ++ ["B"] }
            else ps1
          (ps1, ps2, s1, s2)
      | _, _ => st

/-- The whole board loop of `load_round_results` for one match:
`for board in range(1, team_size + 1)` over the row's cells. -/
def processBoards (team_size round_num : Nat) (boards : List (Option (ℚ × String)))
    (st0 : List Player × List Player × ℚ × ℚ) : List Player × List Player × ℚ × ℚ :=
  (List.range team_size).foldl
    (fun st i => processBoard round_num st i (boardEntry boards i)) st0

/-- Lines 166–169 of the source: append `opp_id` to the opponents list
only when it is not already present anywhere in it. -/
def appendOpp (team : Team) (opp_id : Nat) : Team :=
  if opp_id ∈ team.opponents then team
  else { team with opponents := team.opponents ++ [opp_id] }

/-- Writing the two updated `Team` objects back into the registry: the
Python dict still maps `team1_id`/`team2_id` to the mutated objects. -/
def updateTeams (teams : List Team) (id1 id2 : Nat) (u1 u2 : Team) : List Team :=
  teams.map (fun t => if t.id = id1 then u1 else if t.id = id2 then u2 else t)

/-- Processing of one results row in `load_round_results`: register the
opponents, run the board loop, then set both teams' match points from
`len(opponents) * 2 - 2` plus the current outcome and accumulate game
points.  (Rows are assumed to pair two distinct team ids; in the source a
row pairing a team with itself would alias `team1` and `team2`.) -/
def processRow (team_size round_num : Nat) (teams : List Team) (row : MatchRow) : List Team :=
  match lookupTeam teams row.team1_id, lookupTeam teams row.team2_id with
  | some team1, some team2 =>
    let team1 := appendOpp team1 row.team2_id
    let team2 := appendOpp team2 row.team1_id
    let res := processBoards team_size round_num row.boards (team1.players, team2.players, 0, 0)
    let team1_score := res.2.2.1
    let team2_score := res.2.2.2
    let team1 := { team1 with
      players := res.1,
      match_points := (team1.opponents.length : ℚ) * 2 - 2 +
        (if team1_score > team2_score then 2 else if team2_score > team1_score then 0 else 1),
      game_points := team1.game_points + team1_score }
    let team2 := { team2 with
      players := res.2.1,
      match_points := (team2.opponents.length : ℚ) * 2 - 2 +
        (if team1_score > team2_score then 0 else if team2_score > team1_score then 2 else 1),
      game_points := team2.game_points + team2_score }
    updateTeams teams row.team1_id row.team2_id team1 team2
  | _, _ => teams

/-- `TeamSwissTournament._calculate_buchholz`: for every team, re-sum the
current match points of each resolvable opponent id. -/
def calculate_buchholz (s : Tournament) : Tournament :=
  { s with teams := s.teams.map (fun team =>
      { team with buchholz := team.opponents.foldl (fun acc opp_id =>
          match lookupTeam s.teams opp_id with
          | some opp => acc + opp.match_points
          | none => acc) 0 }) }

/-- `TeamSwissTournament.load_round_results`: process every reported
match of the round, mark the round completed, recompute Buchholz. -/
def load_round_results (round_num : Nat) (rows : List MatchRow) (s : Tournament) : Tournament :=
  calculate_buchholz
    { s with
      teams := rows.foldl (processRow s.team_size round_num) s.teams
      current_round := round_num }

/-- One row of the MAIN snapshot file: team id, the three stored scores,
and per round the optional opponent cell plus the per-board optional
color cells. -/
structure MainRow where
  team_id : Nat
  match_points : ℚ
  game_points : ℚ
  buchholz : ℚ
  rounds : List (Option Nat × List (Option String))
deriving Repr, DecidableEq

/-- One iteration of the round-history loop in `load_from_main`: a blank
opponent cell is skipped entirely; otherwise the opponent id is appended
and each player picks up its color cell for that round when present. -/
def loadTeamRound (team : Team) (cell : Option Nat × List (Option String)) : Team :=
  match cell.1 with
  | none => team
  | some opp_id =>
    { team with
      opponents := team.opponents ++ [opp_id],
      players := team.players.map (fun p =>
        match (cell.2[p.board - 1]?).join with
        | some c => { p with colors := p.colors ++ [c] }
        | none => p) }

/-- Processing of one MAIN row in `load_from_main`: restore the stored
scores, replay the opponent/color history, and raise `current_round` to
the team's opponent count (`max(self.current_round, len(team.opponents))`). -/
def loadMainRow (s : Tournament) (row : MainRow) : Tournament :=
  match lookupTeam s.teams row.team_id with
  | none => s
  | some team =>
    let team := { team with
      match_points := row.match_points
      game_points := row.game_points
      buchholz := row.buchholz }
    let team := row.rounds.foldl loadTeamRound team
    { s with
      teams := s.teams.map (fun t => if t.id = row.team_id then team else t),
      current_round := max s.current_round team.opponents.length }

/-- `TeamSwissTournament.load_from_main` over already-parsed rows. -/
def load_from_main (rows : List MainRow) (s : Tournament) : Tournament :=
  rows.foldl loadMainRow s

/-- A one-player team used in the concrete replay scenarios. -/
def mk1Team (tid : Nat) (nm pname : String) (rtg : Int) : Team :=
  ⟨tid, nm, [⟨pname, rtg, tid, 1, []⟩], 0, 0, [], 0⟩

/-- Four one-board teams A, B, C, D. -/
def sABCD : Tournament :=
  ⟨[mk1Team 1 "A" "a" 1, mk1Team 2 "B" "b" 1,
    mk1Team 3 "C" "c" 1, mk1Team 4 "D" "d" 1], 0, 1⟩

/-- Round 1 results: A beats B, C beats D (white wins both). -/
def round1Rows : List MatchRow := [⟨1, 2, [some (1, "a")]⟩, ⟨3, 4, [some (1, "c")]⟩]

/-- Round 2 results: A beats C, B beats D. -/
def round2Rows : List MatchRow := [⟨1, 3, [some (1, "a")]⟩, ⟨2, 4, [some (1, "b")]⟩]

def sAfter1 : Tournament := load_round_results 1 round1Rows sABCD

def sAfter2 : Tournament := load_round_results 2 round2Rows sAfter1

/-- Two one-board teams X and Y, who must meet every round. -/
def sXY : Tournament := ⟨[mk1Team 1 "X" "x" 1, mk1Team 2 "Y" "y" 1], 0, 1⟩

/-- Round 1: X beats Y. -/
def xyRound1 : List MatchRow := [⟨1, 2, [some (1, "x")]⟩]

/-- Round 2 (a repeat pairing): Y beats X. -/
def xyRound2 : List MatchRow := [⟨1, 2, [some (0, "x")]⟩]

def sXY1 : Tournament := load_round_results 1 xyRound1 sXY

def sXY2 : Tournament := load_round_results 2 xyRound2 sXY1

def tmA : Team := ⟨1, "A", [], 0, 0, [], 0⟩

def tmB : Team := ⟨2, "B", [], 0, 0, [], 0⟩

/-- Concrete teams for the pairing witnesses: `pw1` has already played
team 2 but not team 3. -/
def pw1 : Team := ⟨1, "P1", [], 0, 0, [2], 0⟩

def pw2 : Team := ⟨2, "P2", [], 0, 0, [1], 0⟩

def pw3 : Team := ⟨3, "P3", [], 0, 0, [], 0⟩

/-- A two-team state with recorded opponents and differing match points,
used to witness the Buchholz recomputation. -/
def bwS : Tournament := ⟨[⟨1, "X", [], 3, 0, [2], 0⟩, ⟨2, "Y", [], 5, 0, [1], 0⟩], 1, 1⟩

def pU : Player := ⟨"u", 1200, 1, 1, []⟩

def pV : Player := ⟨"v", 1100, 1, 2, []⟩

def pW : Player := ⟨"w", 1300, 2, 1, []⟩

def pX : Player := ⟨"x", 1250, 2, 2, []⟩

/-- The maximum opponents-list length over a team registry. -/
def maxOppLen (ts : List Team) : Nat :=
  (ts.map (fun t => t.opponents.length)).foldr max 0

/-- Teams that have already met, to witness the dedup append. -/
def wT1 : Team := ⟨1, "X", [], 0, 0, [2], 0⟩

def wT2 : Team := ⟨2, "Y", [], 0, 0, [1], 0⟩

def wTeams : List Team := [wT1, wT2]

/-- A repeat-pairing results row between the two teams, no boards filled. -/
def wRow : MatchRow := ⟨1, 2, []⟩

/-- A MAIN-file row giving team 1 a one-round history. -/
def wMain : List MainRow := [⟨1, 2, 1, 0, [(some 2, [some "W"])]⟩]

end TeamSwiss

namespace TeamSwiss

theorem keyLe_iff (a1 a2 a3 a4 b1 b2 b3 b4 : ℚ) :
    keyLe (a1, a2, a3, a4) (b1, b2, b3, b4) = true ↔
      a1 < b1 ∨ (a1 = b1 ∧ (a2 < b2 ∨ (a2 = b2 ∧ (a3 < b3 ∨ (a3 = b3 ∧ a4 ≤ b4))))) := by
  simp only [keyLe]
  split_ifs with h1 h2 h3 h4 h5 h6
  · simp only [true_iff]
    exact Or.inl h1
  · simp only [false_iff]
    rintro (h | ⟨e, -⟩) <;> linarith
  · have e1 : a1 = b1 := le_antisymm (not_lt.1 h2) (not_lt.1 h1)
    simp only [true_iff]
    exact Or.inr ⟨e1, Or.inl h3⟩
  · simp only [false_iff]
    rintro (h | ⟨-, h | ⟨e, -⟩⟩) <;> linarith
  · have e1 : a1 = b1 := le_antisymm (not_lt.1 h2) (not_lt.1 h1)
    have e2 : a2 = b2 := le_antisymm (not_lt.1 h4) (not_lt.1 h3)
    simp only [true_iff]
    exact Or.inr ⟨e1, Or.inr ⟨e2, Or.inl h5⟩⟩
  · simp only [false_iff]
    rintro (h | ⟨-, h | ⟨-, h | ⟨e, -⟩⟩⟩) <;> linarith
  · have e1 : a1 = b1 := le_antisymm (not_lt.1 h2) (not_lt.1 h1)
    have e2 : a2 = b2 := le_antisymm (not_lt.1 h4) (not_lt.1 h3)
    have e3 : a3 = b3 := le_antisymm (not_lt.1 h6) (not_lt.1 h5)
    simp only [decide_eq_true_eq]
    constructor
    · intro h
      exact Or.inr ⟨e1, Or.inr ⟨e2, Or.inr ⟨e3, h⟩⟩⟩
    · rintro (h | ⟨-, h | ⟨-, h | ⟨-, h⟩⟩⟩) <;> linarith

theorem keyLe_refl (k : ℚ × ℚ × ℚ × ℚ) : keyLe k k = true := by
  obtain ⟨a1, a2, a3, a4⟩ := k
  rw [keyLe_iff]
  exact Or.inr ⟨rfl, Or.inr ⟨rfl, Or.inr ⟨rfl, le_refl _⟩⟩⟩

theorem keyLe_total (a b : ℚ × ℚ × ℚ × ℚ) : keyLe a b || keyLe b a := by
  obtain ⟨a1, a2, a3, a4⟩ := a
  obtain ⟨b1, b2, b3, b4⟩ := b
  simp only [Bool.or_eq_true, keyLe_iff]
  rcases lt_trichotomy a1 b1 with h1 | h1 | h1
  · exact Or.inl (Or.inl h1)
  · rcases lt_trichotomy a2 b2 with h2 | h2 | h2
    · exact Or.inl (Or.inr ⟨h1, Or.inl h2⟩)
    · rcases lt_trichotomy a3 b3 with h3 | h3 | h3
      · exact Or.inl (Or.inr ⟨h1, Or.inr ⟨h2, Or.inl h3⟩⟩)
      · rcases le_total a4 b4 with h4 | h4
        · exact Or.inl (Or.inr ⟨h1, Or.inr ⟨h2, Or.inr ⟨h3, h4⟩⟩⟩)
        · exact Or.inr (Or.inr ⟨h1.symm, Or.inr ⟨h2.symm, Or.inr ⟨h3.symm, h4⟩⟩⟩)
      · exact Or.inr (Or.inr ⟨h1.symm, Or.inr ⟨h2.symm, Or.inl h3⟩⟩)
    · exact Or.inr (Or.inr ⟨h1.symm, Or.inl h2⟩)
  · exact Or.inr (Or.inl h1)

theorem keyLe_trans (a b c : ℚ × ℚ × ℚ × ℚ) :
    keyLe a b → keyLe b c → keyLe a c := by
  obtain ⟨a1, a2, a3, a4⟩ := a
  obtain ⟨b1, b2, b3, b4⟩ := b
  obtain ⟨c1, c2, c3, c4⟩ := c
  simp only [keyLe_iff]
  rintro (h | ⟨e1, hab⟩) (h' | ⟨e1', hbc⟩)
  · exact Or.inl (by linarith)
  · exact Or.inl (by rw [← e1']; exact h)
  · exact Or.inl (by rw [e1]; exact h')
  · refine Or.inr ⟨e1.trans e1', ?_⟩
    rcases hab with h | ⟨e2, hab⟩ <;> rcases hbc with h' | ⟨e2', hbc⟩
    · exact Or.inl (by linarith)
    · exact Or.inl (by rw [← e2']; exact h)
    · exact Or.inl (by rw [e2]; exact h')
    · refine Or.inr ⟨e2.trans e2', ?_⟩
      rcases hab with h | ⟨e3, hab⟩ <;> rcases hbc with h' | ⟨e3', hbc⟩
      · exact Or.inl (by linarith)
      · exact Or.inl (by rw [← e3']; exact h)
      · exact Or.inl (by rw [e3]; exact h')
      · exact Or.inr ⟨e3.trans e3', hab.trans hbc⟩

theorem rank_le_trans (a b c : Team) : rank_le a b → rank_le b c → rank_le a c :=
  keyLe_trans _ _ _

theorem rank_le_total (a b : Team) : rank_le a b || rank_le b a :=
  keyLe_total _ _

/-- C3: `determine_colors` gives white to the strictly lower color
balance; on a balance tie the higher-rated player gets white; on a full
tie the first argument gets white; in particular balance −1 beats +1
regardless of rating. -/
theorem determine_colors_spec (p1 p2 : Player) :
    (colorBalance p1 < colorBalance p2 → determine_colors p1 p2 = (p1, p2)) ∧
    (colorBalance p2 < colorBalance p1 → determine_colors p1 p2 = (p2, p1)) ∧
    (colorBalance p1 = colorBalance p2 → p2.rating < p1.rating →
      determine_colors p1 p2 = (p1, p2)) ∧
    (colorBalance p1 = colorBalance p2 → p1.rating < p2.rating →
      determine_colors p1 p2 = (p2, p1)) ∧
    (colorBalance p1 = colorBalance p2 → p1.rating = p2.rating →
      determine_colors p1 p2 = (p1, p2)) ∧
    (colorBalance p1 = -1 → colorBalance p2 = 1 → determine_colors p1 p2 = (p1, p2)) ∧
    (colorBalance p1 = 1 → colorBalance p2 = -1 → determine_colors p1 p2 = (p2, p1)) := by
  simp only [determine_colors]
  refine ⟨?_, ?_, ?_, ?_, ?_, ?_, ?_⟩ <;> intros <;> split_ifs <;> first | rfl | omega

/-- Witness for C3 at concrete players: a balance −1 player beats a
balance +1 player with a higher rating, and equal balances fall back to
rating. -/
theorem determine_colors_spec_witness :
    determine_colors ⟨"a", 1000, 1, 1, ["B"]⟩ ⟨"b", 2000, 2, 1, ["W"]⟩ =
      (⟨"a", 1000, 1, 1, ["B"]⟩, ⟨"b", 2000, 2, 1, ["W"]⟩) ∧
    determine_colors ⟨"c", 1500, 1, 2, []⟩ ⟨"d", 1600, 2, 2, []⟩ =
      (⟨"d", 1600, 2, 2, []⟩, ⟨"c", 1500, 1, 2, []⟩) :=
  ⟨((determine_colors_spec _ _).2.2.2.2.2.1) (by decide) (by decide),
   ((determine_colors_spec _ _).2.2.2.1) (by decide) (by decide)⟩

/-- C6: standings display and pairing generation sort with the identical
key; the resulting order is a permutation of the team registry, pairwise
non-ascending in the rank key `(-MP, -GP, -Buch, -AvgRtg)`, and stable:
two teams with equal keys keep their relative registry order. -/
theorem ranking_key_consistent (s : Tournament) :
    display_standings_sorted s = generate_round_sorted s ∧
    (display_standings_sorted s).Perm s.teams ∧
    (display_standings_sorted s).Pairwise (fun a b => rank_le a b = true) ∧
    (∀ a b : Team, rankKey a = rankKey b → List.Sublist [a, b] s.teams →
      List.Sublist [a, b] (display_standings_sorted s)) := by
  refine ⟨rfl, List.mergeSort_perm s.teams rank_le, ?_, ?_⟩
  · exact List.sorted_mergeSort (fun a b c => rank_le_trans a b c)
      (fun a b => rank_le_total a b) s.teams
  · intro a b hk hsub
    have hle : rank_le a b = true := by
      unfold rank_le
      rw [hk]
      exact keyLe_refl _
    exact List.pair_sublist_mergeSort (fun a b c => rank_le_trans a b c)
      (fun a b => rank_le_total a b) hle hsub

/-- Witness for C6: two concrete teams with identical keys keep their
registry order in the displayed standings. -/
theorem ranking_key_consistent_witness :
    List.Sublist [tmA, tmB] (display_standings_sorted ⟨[tmA, tmB], 0, 1⟩) :=
  (ranking_key_consistent ⟨[tmA, tmB], 0, 1⟩).2.2.2 tmA tmB (by decide)
    (List.Sublist.refl _)

/-- C2: in `generate_round`'s opponent selection for an unpaired team
`team1`, (1) when the fresh scan succeeds it returns the first
lower-ranked unpaired team not in `team1`'s opponents history and that is
the chosen opponent; (2) when no fresh candidate exists the fallback
picks the first unpaired team regardless of history; (3) hence a chosen
opponent already in the history means no fresh candidate remained; and
(4) the greedy loop pairs `team1` with exactly the picked opponent. -/
theorem generate_round_pairing_spec (team_size : Nat) (team1 : Team)
    (rest : List Team) (paired : List Nat) :
    (∀ c, findFreshOpponent team1 rest paired = some c →
      pickOpponent team1 rest paired = some c ∧
      c.id ∉ paired ∧ c.id ∉ team1.opponents ∧
      ∃ pre post, rest = pre ++ c :: post ∧
        ∀ x ∈ pre, x.id ∈ paired ∨ x.id ∈ team1.opponents) ∧
    (findFreshOpponent team1 rest paired = none →
      (∀ x ∈ rest, x.id ∉ paired → x.id ∈ team1.opponents) ∧
      pickOpponent team1 rest paired = findAnyOpponent rest paired ∧
      ∀ c, findAnyOpponent rest paired = some c →
        c.id ∉ paired ∧ ∃ pre post, rest = pre ++ c :: post ∧
          ∀ x ∈ pre, x.id ∈ paired) ∧
    (∀ c, pickOpponent team1 rest paired = some c → c.id ∈ team1.opponents →
      ∀ x ∈ rest, x.id ∉ paired → x.id ∈ team1.opponents) ∧
    (team1.id ∉ paired →
      ∀ t2, pickOpponent team1 rest paired = some t2 →
        pairLoop team_size (team1 :: rest) paired =
          { team1 := team1, team2 := t2,
            boards := makeBoards team_size team1 t2 } ::
            pairLoop team_size rest (paired ++ [team1.id, t2.id])) := by
  refine ⟨?_, ?_, ?_, ?_⟩
  · intro c h
    obtain ⟨hp, pre, post, heq, hpre⟩ := List.find?_eq_some.1 h
    refine ⟨?_, ?_, ?_, pre, post, heq, ?_⟩
    · unfold pickOpponent
      rw [h]
    · exact (of_decide_eq_true hp).1
    · exact (of_decide_eq_true hp).2
    · intro x hx
      have := hpre x hx
      simp only [Bool.not_eq_true', decide_eq_false_iff_not, not_and, not_not] at this
      by_cases hxp : x.id ∈ paired
      · exact Or.inl hxp
      · exact Or.inr (this hxp)
  · intro h
    have hall := List.find?_eq_none.1 h
    refine ⟨?_, ?_, ?_⟩
    · intro x hx hxp
      have := hall x hx
      simp only [decide_eq_true_eq, not_and, not_not] at this
      exact this hxp
    · unfold pickOpponent
      rw [h]
    · intro c hc
      obtain ⟨hp, pre, post, heq, hpre⟩ := List.find?_eq_some.1 hc
      refine ⟨of_decide_eq_true hp, pre, post, heq, ?_⟩
      intro x hx
      have := hpre x hx
      simpa only [Bool.not_eq_true', decide_eq_false_iff_not, not_not] using this
  · intro c h hmem x hx hxp
    rcases hf : findFreshOpponent team1 rest paired with - | c'
    · have := List.find?_eq_none.1 hf x hx
      simp only [decide_eq_true_eq, not_and, not_not] at this
      exact this hxp
    · exfalso
      have heq : c' = c := by
        have : pickOpponent team1 rest paired = some c' := by
          unfold pickOpponent
          rw [hf]
        rw [this] at h
        exact Option.some.inj h
      obtain ⟨hp, -⟩ := List.find?_eq_some.1 hf
      rw [heq] at hp
      exact (of_decide_eq_true hp).2 hmem
  · intro h t2 ht2
    simp only [pairLoop]
    rw [if_neg h, ht2]

/-- Witness for C2 at concrete inputs: with candidates `[pw2, pw3]` the
fresh scan skips the already-played `pw2` and the loop pairs `pw1` with
`pw3`; with `[pw2]` alone the chosen opponent is a repeat, so every
unpaired candidate was already played. -/
theorem generate_round_pairing_spec_witness :
    (pickOpponent pw1 [pw2, pw3] [] = some pw3 ∧
      pw3.id ∉ ([] : List Nat) ∧ pw3.id ∉ pw1.opponents ∧
      ∃ pre post, [pw2, pw3] = pre ++ pw3 :: post ∧
        ∀ x ∈ pre, x.id ∈ ([] : List Nat) ∨ x.id ∈ pw1.opponents) ∧
    (∀ x ∈ [pw2], x.id ∉ ([] : List Nat) → x.id ∈ pw1.opponents) ∧
    pairLoop 0 [pw1, pw2, pw3] [] =
      [{ team1 := pw1, team2 := pw3, boards := makeBoards 0 pw1 pw3 }] := by
  refine ⟨(generate_round_pairing_spec 0 pw1 [pw2, pw3] []).1 pw3 (by decide), ?_, ?_⟩
  · exact (generate_round_pairing_spec 0 pw1 [pw2] []).2.2.1 pw2 (by decide) (by decide)
  · rw [(generate_round_pairing_spec 0 pw1 [pw2, pw3] []).2.2.2 (by decide) pw3 (by decide)]
    decide

/-- C10: `generate_round` is read-only on the tournament state: the state
component it returns is the input state itself, so every team's match
points, game points, buchholz, opponents list and every player's color
history are unchanged; its only contribution is the returned round number
and pairing list. -/
theorem generate_round_readonly (s : Tournament) :
    (generate_round s).1 = s ∧
    (generate_round s).1.teams.map Team.match_points = s.teams.map Team.match_points ∧
    (generate_round s).1.teams.map Team.game_points = s.teams.map Team.game_points ∧
    (generate_round s).1.teams.map Team.buchholz = s.teams.map Team.buchholz ∧
    (generate_round s).1.teams.map Team.opponents = s.teams.map Team.opponents ∧
    (generate_round s).1.teams.map (fun t => t.players.map Player.colors) =
      s.teams.map (fun t => t.players.map Player.colors) ∧
    (generate_round s).2.1 = s.current_round + 1 :=
  ⟨rfl, rfl, rfl, rfl, rfl, rfl, rfl⟩

/-- C1: evaluation of `load_round_results` at the failing input.  Team B
loses round 1 (0 match points) and wins round 2, so a history sum of
2/1/0 outcomes gives 0 + 2 = 2; the code instead stores
`len(opponents)*2 - 2 + 2 = 4`, because it reconstructs "previous" points
as if every earlier round had been a win. -/
theorem match_points_history_bug :
    (lookupTeam sAfter1.teams 2).map Team.match_points = some 0 ∧
    (lookupTeam sAfter2.teams 2).map Team.match_points = some 4 ∧
    (0 : ℚ) + 2 ≠ 4 := by
  refine ⟨?_, ?_, by norm_num⟩ <;>
    simp [sAfter1, sAfter2, load_round_results, calculate_buchholz, processRow,
      processBoards, processBoard, boardEntry, appendOpp, updateTeams, lookupTeam,
      sABCD, round1Rows, round2Rows, mk1Team, List.find?, List.range, List.range.loop,
      List.foldl]
  norm_num

/-- C5: evaluation of the match-point conservation sum.  After round 1
the sum over the four teams is 4 = 2 × 2 matches, but after round 2 it is
12 while 2 × 4 completed matches is 8: the `len(opponents)*2 - 2 + ...`
overwrite manufactures extra points, so the invariant fails. -/
theorem match_points_sum_bug :
    (sAfter1.teams.map Team.match_points).sum = 2 * 2 ∧
    (sAfter2.teams.map Team.match_points).sum = 12 ∧
    round1Rows.length + round2Rows.length = 4 ∧
    (12 : ℚ) ≠ 2 * 4 := by
  refine ⟨?_, ?_, by decide, by norm_num⟩ <;>
    simp [sAfter1, sAfter2, load_round_results, calculate_buchholz, processRow,
      processBoards, processBoard, boardEntry, appendOpp, updateTeams, lookupTeam,
      sABCD, round1Rows, round2Rows, mk1Team, List.find?, List.range, List.range.loop,
      List.foldl] <;>
    norm_num

/-- Counterexample to C7: after two processed rounds between the same two
teams, team X's player has two color entries (it played both rounds) and
`current_round` is 2, yet its opponents list is still `[2]` of length 1:
the membership test is global, so the repeat pairing appended nothing. -/
theorem opponents_per_round_cex :
    sXY2.current_round = 2 ∧
    (lookupTeam sXY2.teams 1).map (fun t => t.players.map (fun p => p.colors.length)) =
      some [2] ∧
    (lookupTeam sXY2.teams 1).map Team.opponents = some [2] ∧
    ¬ (lookupTeam sXY2.teams 1).map (fun t => t.opponents.length) = some 2 := by
  refine ⟨rfl, ?_, ?_, ?_⟩ <;>
    simp [sXY1, sXY2, load_round_results, calculate_buchholz, processRow,
      processBoards, processBoard, boardEntry, appendOpp, updateTeams, lookupTeam,
      sXY, xyRound1, xyRound2, mk1Team, List.find?, List.range, List.range.loop,
      List.foldl]

theorem lookupTeam_map (g : Team → Team) (hg : ∀ t, (g t).id = t.id)
    (teams : List Team) (tid : Nat) :
    lookupTeam (teams.map g) tid = (lookupTeam teams tid).map g := by
  unfold lookupTeam
  rw [List.find?_map]
  have hp : ((fun t => t.id == tid) ∘ g) = (fun t : Team => t.id == tid) := by
    funext t
    simp [Function.comp, hg]
  rw [hp]

theorem buch_foldl (teams : List Team) (l : List Nat) (acc : ℚ) :
    l.foldl (fun acc opp_id =>
      match lookupTeam teams opp_id with
      | some opp => acc + opp.match_points
      | none => acc) acc
    = acc + (l.map (fun opp_id =>
        match lookupTeam teams opp_id with
        | some opp => opp.match_points
        | none => 0)).sum := by
  induction l generalizing acc with
  | nil => simp
  | cons x xs ih =>
    simp only [List.foldl_cons, List.map_cons, List.sum_cons]
    rcases h : lookupTeam teams x with - | opp <;> simp only [h] <;> rw [ih] <;> ring

theorem calculate_buchholz_lookup (s : Tournament) (oid : Nat) :
    lookupTeam (calculate_buchholz s).teams oid =
      (lookupTeam s.teams oid).map (fun team =>
        { team with buchholz := team.opponents.foldl (fun acc opp_id =>
            match lookupTeam s.teams opp_id with
            | some opp => acc + opp.match_points
            | none => acc) 0 }) := by
  unfold calculate_buchholz
  refine lookupTeam_map _ ?_ s.teams oid
  intro t
  rfl

/-- C4: after `_calculate_buchholz` (and `load_round_results` ends in
exactly that recomputation, after the round's match-point updates and the
`current_round` bump), every team's buchholz equals the sum of the
current match points of the teams named by its opponents history. -/
theorem buchholz_recompute_fresh (s : Tournament) (n : Nat) (rows : List MatchRow)
    (t : Team) (ht : t ∈ (calculate_buchholz s).teams)
    (_hres : ∀ oid ∈ t.opponents, (lookupTeam s.teams oid).isSome = true) :
    t.buchholz = (t.opponents.map (fun oid =>
        match lookupTeam (calculate_buchholz s).teams oid with
        | some opp => opp.match_points
        | none => 0)).sum ∧
    load_round_results n rows s = calculate_buchholz
      { s with
        teams := rows.foldl (processRow s.team_size n) s.teams
        current_round := n } := by
  refine ⟨?_, rfl⟩
  have hpost : ∀ oid : Nat,
      (match lookupTeam (calculate_buchholz s).teams oid with
        | some opp => opp.match_points
        | none => (0 : ℚ)) =
      (match lookupTeam s.teams oid with
        | some opp => opp.match_points
        | none => (0 : ℚ)) := by
    intro oid
    rw [calculate_buchholz_lookup]
    rcases lookupTeam s.teams oid with - | opp <;> rfl
  obtain ⟨t0, ht0, rfl⟩ := List.mem_map.1 ht
  show t0.opponents.foldl _ 0 = _
  rw [buch_foldl, zero_add]
  exact congrArg List.sum (List.map_congr_left (fun oid _ => (hpost oid).symm))

/-- Witness for C4 at a concrete two-team state: team X (3 match points)
has played team Y (5 match points), so after recomputation X carries
buchholz 5, the sum of its single opponent's current match points. -/
theorem buchholz_recompute_fresh_witness :
    (Team.mk 1 "X" [] 3 0 [2] 5).buchholz =
      ((Team.mk 1 "X" [] 3 0 [2] 5).opponents.map (fun oid =>
        match lookupTeam (calculate_buchholz bwS).teams oid with
        | some opp => opp.match_points
        | none => 0)).sum ∧
    load_round_results 1 [] bwS = calculate_buchholz
      { bwS with
        teams := ([] : List MatchRow).foldl (processRow bwS.team_size 1) bwS.teams
        current_round := 1 } :=
  buchholz_recompute_fresh bwS 1 [] ⟨1, "X", [], 3, 0, [2], 5⟩
    (by simp [calculate_buchholz, bwS, lookupTeam, List.find?])
    (by decide)

/-- C9: a board whose result cell is missing or empty contributes
nothing: the board step is the identity on the running state (no game
points, no color appends), and the whole board loop equals the loop over
the remaining board indices alone. -/
theorem missing_result_no_contribution (team_size round_num i : Nat)
    (boards : List (Option (ℚ × String)))
    (st0 : List Player × List Player × ℚ × ℚ)
    (hi : i < team_size) (hnone : boardEntry boards i = none) :
    (∀ st : List Player × List Player × ℚ × ℚ,
        processBoard round_num st i (boardEntry boards i) = st) ∧
    processBoards team_size round_num boards st0 =
      (List.range i ++ (List.range (team_size - (i + 1))).map (fun j => i + 1 + j)).foldl
        (fun st j => processBoard round_num st j (boardEntry boards j)) st0 := by
  have hstep : ∀ st : List Player × List Player × ℚ × ℚ,
      processBoard round_num st i (boardEntry boards i) = st := by
    intro st
    rw [hnone]
    rfl
  refine ⟨hstep, ?_⟩
  unfold processBoards
  have hdecomp : List.range team_size =
      List.range i ++ i :: (List.range (team_size - (i + 1))).map (fun j => i + 1 + j) := by
    conv_lhs => rw [show team_size = i + (1 + (team_size - (i + 1))) from by omega,
      List.range_add]
    congr 1
    rw [show 1 + (team_size - (i + 1)) = (team_size - (i + 1)) + 1 from by omega,
      List.range_succ_eq_map, List.map_cons, List.map_map]
    congr 1
    exact List.map_congr_left (fun j _ => by simp [Function.comp]; omega)
  rw [hdecomp, List.foldl_append, List.foldl_cons, hstep, ← List.foldl_append]

/-- Witness for C9: with board 1's result cell empty and board 2
reported, the two-board loop equals the loop over board 2 alone. -/
theorem missing_result_no_contribution_witness :
    (∀ st : List Player × List Player × ℚ × ℚ,
        processBoard 1 st 0 (boardEntry [none, some (1, "u")] 0) = st) ∧
    processBoards 2 1 [none, some (1, "u")] ([pU, pV], [pW, pX], 0, 0) =
      (List.range 0 ++ (List.range (2 - (0 + 1))).map (fun j => 0 + 1 + j)).foldl
        (fun st j => processBoard 1 st j (boardEntry [none, some (1, "u")] j))
        ([pU, pV], [pW, pX], 0, 0) :=
  missing_result_no_contribution 2 1 0 [none, some (1, "u")]
    ([pU, pV], [pW, pX], 0, 0) (by decide) rfl

/-- Counterexample to C8: in the same two-team repeat scenario,
`current_round` is 2 after processing round 2, but the minimum over all
teams of `len(opponents)` is 1. -/
theorem current_round_min_cex :
    sXY2.current_round = 2 ∧
    sXY2.teams.map (fun t => t.opponents.length) = [1, 1] ∧
    (2 : Nat) ≠ 1 := by
  refine ⟨rfl, ?_, by decide⟩
  simp [sXY1, sXY2, load_round_results, calculate_buchholz, processRow,
    processBoards, processBoard, boardEntry, appendOpp, updateTeams, lookupTeam,
    sXY, xyRound1, xyRound2, mk1Team, List.find?, List.range, List.range.loop,
    List.foldl]

theorem appendOpp_id (t : Team) (o : Nat) : (appendOpp t o).id = t.id := by
  unfold appendOpp
  split <;> rfl

theorem lookupTeam_updateTeams (teams : List Team) (id1 id2 : Nat) (u1 u2 : Team)
    (hu1 : u1.id = id1) (hu2 : u2.id = id2) (hne : id1 ≠ id2)
    (team1 team2 : Team)
    (h1 : lookupTeam teams id1 = some team1)
    (h2 : lookupTeam teams id2 = some team2) :
    lookupTeam (updateTeams teams id1 id2 u1 u2) id1 = some u1 ∧
    lookupTeam (updateTeams teams id1 id2 u1 u2) id2 = some u2 := by
  have hid1 : team1.id = id1 := by
    simpa using List.find?_some h1
  have hid2 : team2.id = id2 := by
    simpa using List.find?_some h2
  have hmap : ∀ tid : Nat, lookupTeam (updateTeams teams id1 id2 u1 u2) tid =
      (lookupTeam teams tid).map
        (fun t => if t.id = id1 then u1 else if t.id = id2 then u2 else t) := by
    intro tid
    unfold updateTeams
    refine lookupTeam_map _ ?_ teams tid
    intro t
    show (if t.id = id1 then u1 else if t.id = id2 then u2 else t).id = t.id
    by_cases ha : t.id = id1
    · rw [if_pos ha, hu1, ha]
    · rw [if_neg ha]
      by_cases hb : t.id = id2
      · rw [if_pos hb, hu2, hb]
      · rw [if_neg hb]
  constructor
  · rw [hmap id1, h1, Option.map_some']
    rw [if_pos hid1]
  · rw [hmap id2, h2, Option.map_some']
    rw [if_neg (by rw [hid2]; exact Ne.symm hne), if_pos hid2]

/-- C7 amended: `load_round_results` appends a reported opponent to a
team's opponents list only when that id is not already present anywhere
in the list (a global dedup, not a per-round one).  Hence a repeat
pairing appends nothing and `len(opponents)` counts distinct opponents,
not rounds played. -/
theorem opponents_append_dedup (k n : Nat) (teams : List Team) (row : MatchRow)
    (team1 team2 : Team)
    (h1 : lookupTeam teams row.team1_id = some team1)
    (h2 : lookupTeam teams row.team2_id = some team2)
    (hne : row.team1_id ≠ row.team2_id) :
    ∃ team1' team2',
      lookupTeam (processRow k n teams row) row.team1_id = some team1' ∧
      lookupTeam (processRow k n teams row) row.team2_id = some team2' ∧
      team1'.opponents = (appendOpp team1 row.team2_id).opponents ∧
      team2'.opponents = (appendOpp team2 row.team1_id).opponents ∧
      (row.team2_id ∈ team1.opponents → team1'.opponents = team1.opponents) ∧
      (row.team2_id ∉ team1.opponents →
        team1'.opponents = team1.opponents ++ [row.team2_id]) := by
  have hid1 : team1.id = row.team1_id := by
    simpa using List.find?_some h1
  have hid2 : team2.id = row.team2_id := by
    simpa using List.find?_some h2
  simp only [processRow, h1, h2]
  refine ⟨?_, ?_, ?g1, ?g2, ?g3, ?g4, ?g5, ?g6⟩
  case g1 =>
    refine (lookupTeam_updateTeams teams _ _ _ _ ?_ ?_ hne team1 team2 h1 h2).1
    · simp [appendOpp_id, hid1]
    · simp [appendOpp_id, hid2]
  case g2 =>
    refine (lookupTeam_updateTeams teams _ _ _ _ ?_ ?_ hne team1 team2 h1 h2).2
    · simp [appendOpp_id, hid1]
    · simp [appendOpp_id, hid2]
  case g3 => rfl
  case g4 => rfl
  case g5 =>
    intro hmem
    simp [appendOpp, hmem]
  case g6 =>
    intro hmem
    simp [appendOpp, hmem]

/-- Witness for C7 amended: a repeat-pairing row between two teams that
already played each other leaves both opponents lists unchanged. -/
theorem opponents_append_dedup_witness :
    ∃ team1' team2',
      lookupTeam (processRow 1 2 wTeams wRow) wRow.team1_id = some team1' ∧
      lookupTeam (processRow 1 2 wTeams wRow) wRow.team2_id = some team2' ∧
      team1'.opponents = (appendOpp wT1 wRow.team2_id).opponents ∧
      team2'.opponents = (appendOpp wT2 wRow.team1_id).opponents ∧
      (wRow.team2_id ∈ wT1.opponents → team1'.opponents = wT1.opponents) ∧
      (wRow.team2_id ∉ wT1.opponents →
        team1'.opponents = wT1.opponents ++ [wRow.team2_id]) :=
  opponents_append_dedup 1 2 wTeams wRow wT1 wT2 (by decide) (by decide) (by decide)


theorem foldr_max_le (l : List Nat) (m : Nat) (h : ∀ x ∈ l, x ≤ m) :
    l.foldr max 0 ≤ m := by
  induction l with
  | nil => simp
  | cons a as ih =>
    simp only [List.foldr_cons]
    exact max_le (h a (List.mem_cons_self a as)) (ih fun x hx => h x (List.mem_cons_of_mem a hx))

theorem le_foldr_max (l : List Nat) (x : Nat) (h : x ∈ l) : x ≤ l.foldr max 0 := by
  induction l with
  | nil => cases h
  | cons a as ih =>
    simp only [List.foldr_cons]
    rcases List.mem_cons.1 h with rfl | h'
    · exact le_max_left _ _
    · exact le_trans (ih h') (le_max_right _ _)

theorem loadTeamRound_id (t : Team) (cell : Option Nat × List (Option String)) :
    (loadTeamRound t cell).id = t.id := by
  obtain ⟨c1, c2⟩ := cell
  cases c1 <;> rfl

theorem loadTeamRound_opp_le (t : Team) (cell : Option Nat × List (Option String)) :
    t.opponents.length ≤ (loadTeamRound t cell).opponents.length := by
  obtain ⟨c1, c2⟩ := cell
  cases c1 <;> simp [loadTeamRound]

theorem foldl_loadTeamRound_id (cells : List (Option Nat × List (Option String)))
    (t : Team) : (cells.foldl loadTeamRound t).id = t.id := by
  induction cells generalizing t with
  | nil => rfl
  | cons c cs ih =>
    rw [List.foldl_cons]
    exact (ih _).trans (loadTeamRound_id t c)

theorem foldl_loadTeamRound_opp_le (cells : List (Option Nat × List (Option String)))
    (t : Team) : t.opponents.length ≤ (cells.foldl loadTeamRound t).opponents.length := by
  induction cells generalizing t with
  | nil => exact Nat.le_refl _
  | cons c cs ih =>
    rw [List.foldl_cons]
    exact (loadTeamRound_opp_le t c).trans (ih _)

theorem loadMainRow_inv (s : Tournament) (row : MainRow)
    (hnd : (s.teams.map Team.id).Nodup)
    (hub : ∀ t ∈ s.teams, t.opponents.length ≤ s.current_round)
    (hat : s.current_round = 0 ∨ ∃ t ∈ s.teams, t.opponents.length = s.current_round) :
    (loadMainRow s row).teams.map Team.id = s.teams.map Team.id ∧
    (∀ t ∈ (loadMainRow s row).teams,
        t.opponents.length ≤ (loadMainRow s row).current_round) ∧
    ((loadMainRow s row).current_round = 0 ∨
      ∃ t ∈ (loadMainRow s row).teams,
        t.opponents.length = (loadMainRow s row).current_round) := by
  rcases hlk : lookupTeam s.teams row.team_id with - | team
  · simp only [loadMainRow, hlk]
    exact ⟨trivial, hub, hat⟩
  · have hmem : team ∈ s.teams := List.mem_of_find?_eq_some hlk
    have hidt : team.id = row.team_id := by
      simpa using List.find?_some hlk
    simp only [loadMainRow, hlk]
    set team' := row.rounds.foldl loadTeamRound
      { team with
        match_points := row.match_points
        game_points := row.game_points
        buchholz := row.buchholz } with hteam'
    have hid' : team'.id = row.team_id := by
      rw [hteam']
      exact (foldl_loadTeamRound_id _ _).trans hidt
    have hle' : team.opponents.length ≤ team'.opponents.length := by
      rw [hteam']
      exact foldl_loadTeamRound_opp_le row.rounds
        { team with
          match_points := row.match_points
          game_points := row.game_points
          buchholz := row.buchholz }
    refine ⟨?_, ?_, ?_⟩
    · rw [List.map_map]
      refine List.map_congr_left ?_
      intro t ht
      by_cases h : t.id = row.team_id
      · simp [Function.comp, h, hid']
      · simp [Function.comp, h]
    · intro t' ht'
      obtain ⟨t0, ht0, rfl⟩ := List.mem_map.1 ht'
      by_cases h : t0.id = row.team_id
      · simp only [if_pos h]
        exact le_max_right _ _
      · simp only [if_neg h]
        exact (hub t0 ht0).trans (le_max_left _ _)
    · rcases Nat.le_total s.current_round team'.opponents.length with hcase | hcase
      · right
        refine ⟨team', List.mem_map.2 ⟨team, hmem, if_pos hidt⟩, ?_⟩
        omega
      · rcases hat with h0 | ⟨t0, ht0, hlen⟩
        · left
          omega
        · by_cases hid0 : t0.id = row.team_id
          · have ht0eq : t0 = team :=
              List.inj_on_of_nodup_map hnd ht0 hmem (by rw [hid0, hidt])
            rw [ht0eq] at hlen
            right
            refine ⟨team', List.mem_map.2 ⟨team, hmem, if_pos hidt⟩, ?_⟩
            omega
          · right
            refine ⟨t0, List.mem_map.2 ⟨t0, ht0, if_neg hid0⟩, ?_⟩
            omega

theorem load_from_main_inv (rows : List MainRow) (s : Tournament)
    (hnd : (s.teams.map Team.id).Nodup)
    (hub : ∀ t ∈ s.teams, t.opponents.length ≤ s.current_round)
    (hat : s.current_round = 0 ∨ ∃ t ∈ s.teams, t.opponents.length = s.current_round) :
    (∀ t ∈ (load_from_main rows s).teams,
        t.opponents.length ≤ (load_from_main rows s).current_round) ∧
    ((load_from_main rows s).current_round = 0 ∨
      ∃ t ∈ (load_from_main rows s).teams,
        t.opponents.length = (load_from_main rows s).current_round) := by
  induction rows generalizing s with
  | nil => exact ⟨hub, hat⟩
  | cons r rs ih =>
    obtain ⟨hids, hub', hat'⟩ := loadMainRow_inv s r hnd hub hat
    exact ih (loadMainRow s r) (by rw [hids]; exact hnd) hub' hat'

/-- C8 amended: `load_round_results(n)` sets `current_round` to `n`
directly; and `load_from_main` on a fresh roster with unique team ids and
counter 0 leaves `current_round` equal to the **maximum** (not the
minimum) over all teams of `len(opponents)` — line 134 computes
`max(self.current_round, len(team.opponents))`, and the two coincide only
when all teams have equally long histories. -/
theorem current_round_amended (n : Nat) (rows : List MatchRow) (s : Tournament)
    (mrows : List MainRow) (s0 : Tournament)
    (hnd : (s0.teams.map Team.id).Nodup)
    (hfresh : ∀ t ∈ s0.teams, t.opponents = [])
    (hcr : s0.current_round = 0) :
    (load_round_results n rows s).current_round = n ∧
    (load_from_main mrows s0).current_round =
      maxOppLen (load_from_main mrows s0).teams := by
  refine ⟨rfl, ?_⟩
  obtain ⟨hub, hat⟩ := load_from_main_inv mrows s0 hnd
    (fun t ht => by simp [hfresh t ht, hcr])
    (Or.inl hcr)
  simp only [maxOppLen]
  apply Nat.le_antisymm
  · rcases hat with h0 | ⟨t0, ht0, hlen⟩
    · rw [h0]
      exact Nat.zero_le _
    · rw [← hlen]
      exact le_foldr_max _ _ (List.mem_map.2 ⟨t0, ht0, rfl⟩)
  · apply foldr_max_le
    intro x hx
    obtain ⟨t, ht, rfl⟩ := List.mem_map.1 hx
    exact hub t ht

/-- Witness for C8 amended: processing a round-1 results list sets the
counter to 1, and loading a MAIN row that gives team 1 a one-round
history sets the counter to the maximum opponents count. -/
theorem current_round_amended_witness :
    (load_round_results 1 [] sXY).current_round = 1 ∧
    (load_from_main wMain sXY).current_round =
      maxOppLen (load_from_main wMain sXY).teams :=
  current_round_amended 1 [] sXY wMain sXY (by decide) (by decide) rfl

end TeamSwiss
